import Mathlib

/-!
Verification of `runsc/mitigate/kubeconfig.go` (gVisor).

The file embeds the kubeconfig document wrapper and the GKE reserved-CPU
calculator as executable Lean definitions and proves the frozen claims
about them.

Modelling conventions:
* Go's `map[interface{}]interface{}` document tree becomes the inductive
  type `YVal`: a node is either a string scalar or a mapping, represented
  as an association list from string keys to child nodes.  The operations
  of the source only ever distinguish "is a mapping" from "is not a
  mapping" and "is a string" from "is not a string", so the remaining Go
  scalar kinds (numbers, booleans) behave exactly like string scalars in
  every modelled operation; string scalars, mappings and sequences of
  scalars therefore cover the spec's whole document model.
* Go mutates the tree in place through aliased map references.  The Lean
  embedding threads the updated tree explicitly: each operation returns
  its result together with the document tree as it stands after the call.
* Go's `float64` literals `0.06`, `0.01`, `0.005`, `0.0025` and the
  products `1000 * p` (60, 10, 5, 2.5) are all exactly representable in
  `float64`, and the running sums stay well below 2^52 half-units for any
  machine that can actually allocate the `totals` slice, so the float
  arithmetic of the source is exact and is embedded as rational
  arithmetic (`ℚ`).
* A Go runtime panic (negative slice length, out-of-range indexing) is
  the `crash` outcome; a returned `error` value is the `err` outcome and
  carries the document tree as it stands when the error is returned.
  Platform-dependent allocation limits for gigantic slice lengths are
  memory-layout behaviour and are not modelled.
-/

/-- A node of the parsed kubelet-config document: a string scalar, a
mapping from string keys to child nodes (Go: `map[interface{}]interface{}`,
with the insertion-ordered association list standing for the Go map), or a
sequence of scalars (Go: `[]interface{}`), the three node kinds of the
spec's document model. -/
inductive YVal where
  | str : String → YVal
  | map : List (String × YVal) → YVal
  | seq : List String → YVal

/-- Lookup of a key in a mapping node (Go: `r[field]`, comma-ok read). -/
def mapLookup : List (String × YVal) → String → Option YVal
  | [], _ => none
  | (k, w) :: rest, f => if k = f then some w else mapLookup rest f

/-- Write of a key in a mapping node (Go: `r[field] = v`): replaces the
binding if the key is present, otherwise appends a new binding. -/
def mapUpdate : List (String × YVal) → String → YVal → List (String × YVal)
  | [], f, v => [(f, v)]
  | (k, w) :: rest, f, v =>
    if k = f then (f, v) :: rest else (k, w) :: mapUpdate rest f v

/-- Outcome of a Go call that may return an error or panic.  `ok` and
`err` carry the document tree as it stands after the call (Go mutates the
tree in place, so the caller keeps the partially updated tree even when an
error is returned); `crash` is a Go runtime panic. -/
inductive GoResult (α : Type) where
  | ok : α → GoResult α
  | err : String → α → GoResult α
  | crash : GoResult α

/-- Constant `kubeconfigSuffix` from the source: the mandatory trailer of
GKE kubelet-config.yaml files. -/
def kubeconfigSuffix : String := "KUBE_SCHEDULER_CONFIG\n"

/-- Constant `kubeReservedField` from the source. -/
def kubeReservedField : String := "kubeReserved"

/-- Constant `cpuField` from the source. -/
def cpuField : String := "cpu"

/-- Constant `gkeCustomReservedCPU` from the source: the flat reservation
GKE sets for several small machine types. -/
def gkeCustomReservedCPU : String := "1060m"

/-- Embedding of `(*kubeconfig).getSubfield`.  Walks the tree along
`fields`; at each step the current node must be a mapping, and the walk
descends through the key.  With `get = true` a missing key is an error;
with `get = false` a missing key is autovivified as a fresh empty mapping
(Go: `r[field] = make(map[interface{}]interface{})`).  Returns the Go
return value (`interface{}, error`) in the first component and the
document tree after the call in the second; Go performs the
autovivification by mutating the aliased maps in place, which the
embedding renders by rebuilding the spine of the walk around the updated
child. -/
def getSubfield (doc : YVal) (fields : List String) (get : Bool) :
    Except String YVal × YVal :=
  match fields with
  | [] => (Except.ok doc, doc)
  | f :: fs =>
    match doc with
    | YVal.map m =>
      match mapLookup m f with
      | some child =>
        ((getSubfield child fs get).1,
          YVal.map (mapUpdate m f (getSubfield child fs get).2))
      | none =>
        if get then (Except.error ("field " ++ f ++ " does not exist"), doc)
        else ((getSubfield (YVal.map []) fs get).1,
          YVal.map (mapUpdate m f (getSubfield (YVal.map []) fs get).2))
    | _ => (Except.error ("result is not a map on field " ++ f), doc)

/-- Embedding of `(*kubeconfig).getFieldAsString`: `getSubfield` in get
mode followed by the string type assertion.  Second component is the
document tree after the call. -/
def getFieldAsString (doc : YVal) (fields : List String) :
    Except String String × YVal :=
  match (getSubfield doc fields true).1 with
  | Except.error e => (Except.error e, (getSubfield doc fields true).2)
  | Except.ok (YVal.str s) => (Except.ok s, (getSubfield doc fields true).2)
  | Except.ok _ =>
    (Except.error "reservedCPU field not string", (getSubfield doc fields true).2)

/-- Replace the node sitting at `path` (all of whose ancestors exist and
are mappings) with `newNode`.  This is how the embedding renders the final
in-place write of `setField`, which Go performs through the map reference
returned by `getSubfield`.  The fall-through arms are unreachable whenever
the path was just walked successfully in set mode. -/
def updateAt : YVal → List String → YVal → YVal
  | _, [], newNode => newNode
  | YVal.map m, f :: fs, newNode =>
    match mapLookup m f with
    | some child => YVal.map (mapUpdate m f (updateAt child fs newNode))
    | none => YVal.map m
  | v, _ :: _, _ => v

/-- Embedding of `(*kubeconfig).setField`.  Go first slices
`fields[:len(fields)-1]`, which panics for an empty `fields` (the `crash`
outcome); it then walks that parent path in set mode, wraps any walk error
as `failed to set field: ...`, asserts that the reached parent node is a
mapping (error `field ... not in result` otherwise), and finally writes
the string value under the last field through the aliased reference —
rendered here by `updateAt` on the walked parent path. -/
def setField (doc : YVal) (fields : List String) (value : String) :
    GoResult YVal :=
  if h : fields = [] then GoResult.crash
  else
    match getSubfield doc fields.dropLast false with
    | (Except.error e, doc2) => GoResult.err ("failed to set field: " ++ e) doc2
    | (Except.ok r, doc2) =>
      match r with
      | YVal.map m =>
        GoResult.ok (updateAt doc2 fields.dropLast
          (YVal.map (mapUpdate m (fields.getLast h) (YVal.str value))))
      | _ =>
        GoResult.err ("field " ++ fields.getLast h ++ " not in result") doc2

/-- Embedding of `(*kubeconfig).getReservedCPU`. -/
def getReservedCPU (doc : YVal) : Except String String × YVal :=
  getFieldAsString doc [kubeReservedField, cpuField]

/-- One entry of the anonymous range struct in `computeReservedCPU`:
percentage of CPU, first core index, one past the last core index. -/
structure CPURange where
  percentage : ℚ
  minCPU : Int
  maxCPU : Int

/-- The four GKE percentage ranges of `computeReservedCPU`, in source
order.  The Go `float64` literals 0.06, 0.01, 0.005, 0.0025 are exactly
representable, so the rational literals coincide with them. -/
def gkeRanges (cpus : Int) : List CPURange :=
  [⟨0.06, 0, 1⟩, ⟨0.01, 1, 2⟩, ⟨0.005, 2, 4⟩, ⟨0.0025, 4, cpus⟩]

/-- The `totals` array of `computeReservedCPU` as a function of the core
index.  The array starts as zeros (`make([]float64, cpus)`), and each
range's inner loop `for i := p.minCPU; i < cpus && i < p.maxCPU; i++`
overwrites exactly the indices `i` with `p.minCPU ≤ i ∧ i < cpus ∧
i < p.maxCPU` by `1000 * p.percentage`; the ranges are processed in source
order, later writes shadowing earlier ones as in the array. -/
def totalsFun (cpus : Int) : Int → ℚ :=
  (gkeRanges cpus).foldl
    (fun totals p => fun i =>
      if p.minCPU ≤ i ∧ i < cpus ∧ i < p.maxCPU then 1000 * p.percentage
      else totals i)
    (fun _ => 0)

/-- The aggregation loop of `computeReservedCPU`: sum of the `totals`
array over the indices `[0, cpus)`. -/
def milliCPUs (cpus : Int) : ℚ :=
  ((List.range cpus.toNat).map (fun i => totalsFun cpus ((i : Nat) : Int))).sum

/-- Go's `int64(f)` conversion truncates toward zero.  Every value it is
applied to here is a nonnegative rational, for which truncation toward
zero, floor division and euclidean division all coincide, so the numerator
divided by the denominator is exact. -/
def int64trunc (q : ℚ) : Int := q.num / (q.den : Int)

/-- The general-computation tail of `computeReservedCPU` (everything after
the small-shape special case): `make([]float64, cpus)` panics for a
negative length, otherwise the loops run and the result is formatted as
`fmt.Sprintf("%dm", int64(milliCPUs))`.  The document is untouched. -/
def reservedFromFormula (doc : YVal) (cpus : Int) : GoResult (String × YVal) :=
  if cpus < 0 then GoResult.crash
  else GoResult.ok (toString (int64trunc (milliCPUs cpus)) ++ "m", doc)

/-- Embedding of `(*kubeconfig).computeReservedCPU`.  For `cpus <= 2` the
current `kubeReserved.cpu` value is read first: a read error is returned
as is (with the Go zero value `""` in the string slot), and the GKE
override literal is returned unchanged; any other readable value falls
through to the general computation. -/
def computeReservedCPU (doc : YVal) (cpus : Int) : GoResult (String × YVal) :=
  if cpus ≤ 2 then
    match getReservedCPU doc with
    | (Except.error e, doc2) => GoResult.err e ("", doc2)
    | (Except.ok val, doc2) =>
      if val = gkeCustomReservedCPU then GoResult.ok (val, doc2)
      else reservedFromFormula doc2 cpus
  else reservedFromFormula doc cpus

/-- Claim-side formula for the reservation, written from the claim's own
words: 60 milli-units if at least one core, 10 more if at least two, 5 per
core index in `[2,4) ∩ [0,cpuCount)` and 2.5 per core index in
`[4,cpuCount)`, summed before any truncation. -/
def claimReservedQ (cpus : Int) : ℚ :=
  (if 1 ≤ cpus then 60 else 0) + (if 2 ≤ cpus then 10 else 0)
    + 5 * ((max 0 (min 4 cpus - 2) : Int) : ℚ)
    + 2.5 * ((max 0 (cpus - 4) : Int) : ℚ)

/-- Claim-side result string: the truncation of the claim formula,
formatted as `<n>m`. -/
def claimString (cpus : Int) : String :=
  toString (int64trunc (claimReservedQ cpus)) ++ "m"

/-- Proof-side closed form of one `totals` entry for an index inside
`[0, cpus)`. -/
def reservedPerCoreQ (i : Int) : ℚ :=
  if i < 1 then 60 else if i < 2 then 10 else if i < 4 then 5 else 5 / 2

/-- Projection of the document tree after a `computeReservedCPU` call
(the tree the caller still holds, whatever the outcome; a crash ends the
program, so the tree is reported unchanged there). -/
def docAfterCompute (doc : YVal) (cpus : Int) : YVal :=
  match computeReservedCPU doc cpus with
  | GoResult.ok (_, d) => d
  | GoResult.err _ (_, d) => d
  | GoResult.crash => doc

/-!
The serializer part.  `getKubeconfig` and `unpack` of the source pair the
external YAML codec (`yaml.Unmarshal` / `yaml.Marshal` of gopkg.in/yaml.v2,
code that is not part of this repository) with the marker handling
(`strings.TrimSuffix` on read, byte append on write), which is source
code of this repository.  The marker handling below is embedded from the
source; the codec itself is modelled from the spec.  Byte strings are
`List Char`.
-/

/-- Embedding of Go `strings.TrimSuffix` over byte strings: drops the
suffix if present, otherwise returns the input unchanged. -/
def trimSuffixCL (s suffix : List Char) : List Char :=
  if suffix.isSuffixOf s then s.take (s.length - suffix.length) else s

/-- Modelled from the spec: the lexer of the hierarchical text format.
Splits a byte string into newline-terminated lines; a final chunk without
its newline terminator is not a valid document body. -/
def splitLinesCL : List Char → Option (List (List Char))
  | [] => some []
  | c :: rest =>
    if c = '\n' then
      match splitLinesCL rest with
      | some ls => some ([] :: ls)
      | none => none
    else
      match splitLinesCL rest with
      | some (l :: ls) => some ((c :: l) :: ls)
      | _ => none

/-- Inverse of `splitLinesCL`: rebuilds the byte string from its lines. -/
def joinLinesCL (ls : List (List Char)) : List Char :=
  (ls.map (fun l => l ++ ['\n'])).flatten

/-- Modelled from the spec: split a line body at its first colon,
returning the key part (colon-free) and everything after the colon. -/
def splitColon : List Char → Option (List Char × List Char)
  | [] => none
  | c :: rest =>
    if c = ':' then some ([], rest)
    else
      match splitColon rest with
      | some (k, r) => some (c :: k, r)
      | none => none

/-- Modelled from the spec: a line belongs to nesting depth `n` when it
starts with exactly `2n` spaces followed by a non-space character. -/
def lineIndentOK (n : Nat) (line : List Char) : Bool :=
  match line.drop (2 * n) with
  | [] => false
  | c :: _ => decide (line.take (2 * n) = List.replicate (2 * n) ' ') && !(c = ' ')

/-- Modelled from the spec: recognise one sequence-item line of depth
`n` — exactly `2n` spaces, a dash and a space, then the scalar item —
and return the item. -/
def seqItemBody (n : Nat) (line : List Char) : Option (List Char) :=
  if line.take (2 * n + 2) = List.replicate (2 * n) ' ' ++ ['-', ' '] then
    some (line.drop (2 * n + 2))
  else none

/-- Modelled from the spec: consume the maximal run of sequence-item
lines of depth `n`, returning the items and the unconsumed lines. -/
def parseSeqItems (n : Nat) : List (List Char) → List String × List (List Char)
  | [] => ([], [])
  | line :: rest =>
    match seqItemBody n line with
    | some item =>
      (String.mk item :: (parseSeqItems n rest).1, (parseSeqItems n rest).2)
    | none => ([], line :: rest)

/-- Modelled from the spec: the recursive-descent reader of the mapping
tree (the role `yaml.Unmarshal` plays for the source, restricted to the
order-preserving mapping/sequence/string-scalar shape of the spec's
document model).  At depth `n` it consumes the maximal run of lines of
exactly that depth: `key: value` lines become string scalars, and a
`key:` line introduces either a nonempty run of `- item` sequence lines
at the same depth (the serializer's layout for sequences) or a nonempty
sub-mapping one depth deeper.  Returns the parsed entries and the
unconsumed lines; `fuel` bounds the recursion and any honest caller passes
more fuel than there are lines. -/
def parseBlock : Nat → Nat → List (List Char) →
    Option (List (String × YVal) × List (List Char))
  | 0, _, _ => none
  | _ + 1, _, [] => some ([], [])
  | fuel + 1, n, line :: rest =>
    if lineIndentOK n line then
      match splitColon (line.drop (2 * n)) with
      | none => none
      | some (k, r) =>
        if k = [] then none
        else
          match r with
          | [] =>
            match parseSeqItems n rest with
            | (i0 :: items, rem1) =>
              match parseBlock fuel n rem1 with
              | none => none
              | some (entries, rem2) =>
                some ((String.mk k, YVal.seq (i0 :: items)) :: entries, rem2)
            | ([], _) =>
              match parseBlock fuel (n + 1) rest with
              | none => none
              | some ([], _) => none
              | some (s0 :: subRest, rem) =>
                match parseBlock fuel n rem with
                | none => none
                | some (entries, rem2) =>
                  some ((String.mk k, YVal.map (s0 :: subRest)) :: entries, rem2)
          | c :: v =>
            if c = ' ' then
              match parseBlock fuel n rest with
              | none => none
              | some (entries, rem2) =>
                some ((String.mk k, YVal.str (String.mk v)) :: entries, rem2)
            else none
    else some ([], line :: rest)

/-- Modelled from the spec: the renderer of the document tree (the role
`yaml.Marshal` plays for the source), exact inverse of `parseBlock` on the
documents the reader accepts.  A sequence is rendered as its header line
followed by one `- item` line per element at the same depth, the layout
the reference serializer uses for the repository's own sample file. -/
def renderEntries (n : Nat) : List (String × YVal) → List (List Char)
  | [] => []
  | (k, YVal.str v) :: rest =>
    (List.replicate (2 * n) ' ' ++ k.data ++ [':', ' '] ++ v.data)
      :: renderEntries n rest
  | (k, YVal.seq items) :: rest =>
    (List.replicate (2 * n) ' ' ++ k.data ++ [':'])
      :: (items.map (fun s => List.replicate (2 * n) ' ' ++ '-' :: ' ' :: s.data)
        ++ renderEntries n rest)
  | (k, YVal.map sub) :: rest =>
    (List.replicate (2 * n) ' ' ++ k.data ++ [':'])
      :: (renderEntries (n + 1) sub ++ renderEntries n rest)

/-- Embedding of `getKubeconfig`: strip the trailing marker (source), then
parse the remaining bytes into the mapping tree (spec-modelled codec).
`none` stands for a returned parse error. -/
def getKubeconfig (data : List Char) : Option (List (String × YVal)) :=
  match splitLinesCL (trimSuffixCL data kubeconfigSuffix.data) with
  | none => none
  | some lines =>
    match parseBlock (lines.length + 1) 0 lines with
    | some (entries, []) => some entries
    | _ => none

/-- Embedding of `(*kubeconfig).unpack`: render the tree (spec-modelled
codec), then append the marker bytes (source). -/
def unpack (config : List (String × YVal)) : List Char :=
  joinLinesCL (renderEntries 0 config) ++ kubeconfigSuffix.data

/-- Writing back the value a key already holds leaves the mapping
unchanged. -/
theorem mapUpdate_lookup_self {m : List (String × YVal)} {f : String}
    {c : YVal} (h : mapLookup m f = some c) : mapUpdate m f c = m := by
  induction m with
  | nil => simp [mapLookup] at h
  | cons kv rest ih =>
    obtain ⟨k, w⟩ := kv
    by_cases hk : k = f
    · subst hk
      simp [mapLookup] at h
      simp [mapUpdate, h]
    · simp [mapLookup, hk] at h
      simp [mapUpdate, hk, ih h]

/-- Looking up a key right after writing it returns the written value. -/
theorem mapLookup_mapUpdate_self (m : List (String × YVal)) (f : String)
    (v : YVal) : mapLookup (mapUpdate m f v) f = some v := by
  induction m with
  | nil => simp [mapUpdate, mapLookup]
  | cons kv rest ih =>
    obtain ⟨k, w⟩ := kv
    by_cases hk : k = f
    · subst hk
      simp [mapUpdate, mapLookup]
    · simp [mapUpdate, hk, mapLookup, ih]

/-- A get-mode walk never changes the document tree. -/
theorem getSubfield_get_tree (fields : List String) :
    ∀ doc : YVal, (getSubfield doc fields true).2 = doc := by
  induction fields with
  | nil => intro doc; simp [getSubfield]
  | cons f fs ih =>
    intro doc
    match doc with
    | YVal.str s => simp [getSubfield]
    | YVal.seq l => simp [getSubfield]
    | YVal.map m =>
      match hl : mapLookup m f with
      | some child =>
        simp [getSubfield, hl, ih child, mapUpdate_lookup_self hl]
      | none => simp [getSubfield, hl]

/-- The read wrapper `getFieldAsString` never changes the document tree. -/
theorem getFieldAsString_tree (doc : YVal) (fields : List String) :
    (getFieldAsString doc fields).2 = doc := by
  unfold getFieldAsString
  match h : (getSubfield doc fields true).1 with
  | Except.error e => simp [h, getSubfield_get_tree]
  | Except.ok (YVal.str s) => simp [h, getSubfield_get_tree]
  | Except.ok (YVal.map m) => simp [h, getSubfield_get_tree]
  | Except.ok (YVal.seq l) => simp [h, getSubfield_get_tree]

/-- The read wrapper `getReservedCPU` never changes the document tree. -/
theorem getReservedCPU_tree (doc : YVal) : (getReservedCPU doc).2 = doc :=
  getFieldAsString_tree doc [kubeReservedField, cpuField]

/-- A set-mode walk that starts from a fresh empty mapping always succeeds
and always produces a mapping. -/
theorem getSubfield_set_emptyMap (fs : List String) :
    ∃ m2, (getSubfield (YVal.map []) fs false).1 = Except.ok (YVal.map m2) := by
  induction fs with
  | nil => exact ⟨[], rfl⟩
  | cons f fs ih =>
    obtain ⟨m2, h⟩ := ih
    exact ⟨m2, by simp [getSubfield, mapLookup, h]⟩

/-- A set-mode walk that returns an error leaves the document tree
unchanged: the walk errors only on an existing non-mapping node, which it
must meet before it has autovivified anything. -/
theorem getSubfield_set_error_tree (fields : List String) :
    ∀ (doc : YVal) (e : String),
      (getSubfield doc fields false).1 = Except.error e →
      (getSubfield doc fields false).2 = doc := by
  induction fields with
  | nil => intro doc e h; simp [getSubfield] at h
  | cons f fs ih =>
    intro doc e h
    match doc with
    | YVal.str s => simp [getSubfield]
    | YVal.seq l => simp [getSubfield]
    | YVal.map m =>
      match hl : mapLookup m f with
      | some child =>
        simp [getSubfield, hl] at h ⊢
        rw [ih child e h, mapUpdate_lookup_self hl]
      | none =>
        obtain ⟨m2, hm2⟩ := getSubfield_set_emptyMap fs
        simp [getSubfield, hl, hm2] at h

/-- A set-mode walk that succeeds but reaches a non-mapping (string) node
leaves the document tree unchanged: an existing string can only be reached
along a path of existing nodes, before any autovivification. -/
theorem getSubfield_set_str_tree (fields : List String) :
    ∀ (doc : YVal) (s : String),
      (getSubfield doc fields false).1 = Except.ok (YVal.str s) →
      (getSubfield doc fields false).2 = doc := by
  induction fields with
  | nil => intro doc s h; simp [getSubfield] at h ⊢
  | cons f fs ih =>
    intro doc s h
    match doc with
    | YVal.str s2 => simp [getSubfield]
    | YVal.seq l => simp [getSubfield]
    | YVal.map m =>
      match hl : mapLookup m f with
      | some child =>
        simp [getSubfield, hl] at h ⊢
        rw [ih child s h, mapUpdate_lookup_self hl]
      | none =>
        obtain ⟨m2, hm2⟩ := getSubfield_set_emptyMap fs
        simp [getSubfield, hl, hm2] at h

/-- A set-mode walk that succeeds but reaches a non-mapping (sequence)
node leaves the document tree unchanged, for the same reason as for
strings. -/
theorem getSubfield_set_seq_tree (fields : List String) :
    ∀ (doc : YVal) (l : List String),
      (getSubfield doc fields false).1 = Except.ok (YVal.seq l) →
      (getSubfield doc fields false).2 = doc := by
  induction fields with
  | nil => intro doc l h; simp [getSubfield] at h ⊢
  | cons f fs ih =>
    intro doc l h
    match doc with
    | YVal.str s2 => simp [getSubfield]
    | YVal.seq l2 => simp [getSubfield]
    | YVal.map m =>
      match hl : mapLookup m f with
      | some child =>
        simp [getSubfield, hl] at h ⊢
        rw [ih child l h, mapUpdate_lookup_self hl]
      | none =>
        obtain ⟨m2, hm2⟩ := getSubfield_set_emptyMap fs
        simp [getSubfield, hl, hm2] at h

/-- After a successful set-mode walk to a mapping parent and the write of
`field := val` at that parent, a get-mode walk of the extended path reads
back exactly the written string. -/
theorem getSubfield_set_then_get (p : List String) :
    ∀ (doc : YVal) (m : List (String × YVal)) (field val : String),
      (getSubfield doc p false).1 = Except.ok (YVal.map m) →
      (getSubfield
          (updateAt (getSubfield doc p false).2 p
            (YVal.map (mapUpdate m field (YVal.str val))))
          (p ++ [field]) true).1 = Except.ok (YVal.str val) := by
  induction p with
  | nil =>
    intro doc m field val h
    simp [getSubfield] at h
    subst h
    simp [getSubfield, updateAt, mapLookup_mapUpdate_self]
  | cons f fs ih =>
    intro doc m field val h
    match doc with
    | YVal.str s => simp [getSubfield] at h
    | YVal.seq l => simp [getSubfield] at h
    | YVal.map m0 =>
      match hl : mapLookup m0 f with
      | some child =>
        simp only [getSubfield, hl] at h ⊢
        rw [show updateAt (YVal.map (mapUpdate m0 f (getSubfield child fs false).2)) (f :: fs)
              (YVal.map (mapUpdate m field (YVal.str val)))
            = YVal.map (mapUpdate (mapUpdate m0 f (getSubfield child fs false).2) f
                (updateAt (getSubfield child fs false).2 fs (YVal.map (mapUpdate m field (YVal.str val)))))
          from by rw [updateAt]; rw [mapLookup_mapUpdate_self]]
        simp only [mapLookup_mapUpdate_self]
        exact ih child m field val h
      | none =>
        simp only [getSubfield, hl, Bool.false_eq_true, if_false] at h ⊢
        rw [show updateAt (YVal.map (mapUpdate m0 f (getSubfield (YVal.map []) fs false).2)) (f :: fs)
              (YVal.map (mapUpdate m field (YVal.str val)))
            = YVal.map (mapUpdate (mapUpdate m0 f (getSubfield (YVal.map []) fs false).2) f
                (updateAt (getSubfield (YVal.map []) fs false).2 fs
                  (YVal.map (mapUpdate m field (YVal.str val)))))
          from by rw [updateAt]; rw [mapLookup_mapUpdate_self]]
        simp only [mapLookup_mapUpdate_self]
        exact ih (YVal.map []) m field val h

/-- Componentwise characterisation of a pair. -/
theorem pairExt {α β : Type} (p : α × β) {a : α} {b : β}
    (h1 : p.1 = a) (h2 : p.2 = b) : p = (a, b) := by
  cases p
  cases h1
  cases h2
  rfl

/-- Claim C9: when `setField` returns an error, the document tree it
leaves behind is exactly the input tree — no autovivified intermediate
mappings survive, because a type mismatch can only be met before any node
has been created along the walk. -/
theorem setField_error_atomic (doc : YVal) (fields : List String)
    (v e : String) (doc2 : YVal)
    (h : setField doc fields v = GoResult.err e doc2) :
    setField doc fields v = GoResult.err e doc := by
  by_cases hn : fields = []
  · rw [setField, dif_pos hn] at h
    exact absurd h (fun hc => GoResult.noConfusion hc)
  · rcases hg : getSubfield doc fields.dropLast false with ⟨e0 | (s2 | m | sq), T⟩
    · have hT : T = doc := by
        have h2 := getSubfield_set_error_tree fields.dropLast doc e0 (by rw [hg])
        rw [hg] at h2
        exact h2
      rw [setField, dif_neg hn, hg] at h ⊢
      simp only [GoResult.err.injEq] at h
      rw [hT]
      show GoResult.err ("failed to set field: " ++ e0) doc = GoResult.err e doc
      rw [h.1]
    · have hT : T = doc := by
        have h2 := getSubfield_set_str_tree fields.dropLast doc s2 (by rw [hg])
        rw [hg] at h2
        exact h2
      rw [setField, dif_neg hn, hg] at h ⊢
      simp only [GoResult.err.injEq] at h
      rw [hT]
      show GoResult.err ("field " ++ fields.getLast hn ++ " not in result") doc
        = GoResult.err e doc
      rw [h.1]
    · rw [setField, dif_neg hn, hg] at h
      simp at h
    · have hT : T = doc := by
        have h2 := getSubfield_set_seq_tree fields.dropLast doc sq (by rw [hg])
        rw [hg] at h2
        exact h2
      rw [setField, dif_neg hn, hg] at h ⊢
      simp only [GoResult.err.injEq] at h
      rw [hT]
      show GoResult.err ("field " ++ fields.getLast hn ++ " not in result") doc
        = GoResult.err e doc
      rw [h.1]

/-- Witness for C9 at a concrete blocked write. -/
theorem setField_error_atomic_witness :
    setField (YVal.map [("a", YVal.str "s")]) ["a", "b"] "x"
      = GoResult.err "field b not in result" (YVal.map [("a", YVal.str "s")]) :=
  setField_error_atomic (YVal.map [("a", YVal.str "s")]) ["a", "b"] "x"
    "field b not in result" (YVal.map [("a", YVal.str "s")]) rfl

/-- Counterexample to claim C6 as stated: on a document where `a` is
bound to a string, `setPath ["a","b"]` returns an error and leaves the
document unchanged, after which `getAsString ["a","b"]` returns an error
rather than the written value. -/
theorem set_then_get_counterexample :
    setField (YVal.map [("a", YVal.str "s")]) ["a", "b"] "x"
        = GoResult.err "field b not in result" (YVal.map [("a", YVal.str "s")])
      ∧ (getFieldAsString (YVal.map [("a", YVal.str "s")]) ["a", "b"]).1
        = Except.error "result is not a map on field b"
      ∧ (Except.error "result is not a map on field b" : Except String String)
        ≠ Except.ok "x" := by
  refine ⟨rfl, rfl, ?_⟩
  intro hc
  exact Except.noConfusion hc

/-- Claim C6 (amended): whenever `setField doc p v` succeeds, reading the
path `p` back with `getFieldAsString` on the updated document returns
exactly `v`. -/
theorem setPath_then_getAsString (doc : YVal) (fields : List String)
    (v : String) (doc2 : YVal) (h : setField doc fields v = GoResult.ok doc2) :
    (getFieldAsString doc2 fields).1 = Except.ok v := by
  by_cases hn : fields = []
  · rw [setField, dif_pos hn] at h
    exact absurd h (fun hc => GoResult.noConfusion hc)
  · rcases hg : getSubfield doc fields.dropLast false with ⟨e0 | (s2 | m | sq), T⟩
    · rw [setField, dif_neg hn, hg] at h
      simp at h
    · rw [setField, dif_neg hn, hg] at h
      simp at h
    · rw [setField, dif_neg hn, hg] at h
      simp only [GoResult.ok.injEq] at h
      have hkey := getSubfield_set_then_get fields.dropLast doc m (fields.getLast hn) v
        (by rw [hg])
      rw [hg] at hkey
      rw [List.dropLast_append_getLast hn] at hkey
      rw [← h] at *
      simp only [getFieldAsString, hkey]
    · rw [setField, dif_neg hn, hg] at h
      simp at h

/-- Witness for amended C6 at a concrete successful write (with
autovivification of `kubeReserved`). -/
theorem setPath_then_getAsString_witness :
    (getFieldAsString
        (YVal.map [("kubeReserved", YVal.map [("cpu", YVal.str "50m")])])
        ["kubeReserved", "cpu"]).1 = Except.ok "50m" :=
  setPath_then_getAsString (YVal.map []) ["kubeReserved", "cpu"] "50m"
    (YVal.map [("kubeReserved", YVal.map [("cpu", YVal.str "50m")])]) rfl

/-- Claim C7: reads never mutate the document: a get-mode walk and
`getFieldAsString` return the tree unchanged, and the tree a caller holds
after `computeReservedCPU` is the tree it passed in, for every cpu
count. -/
theorem reads_never_mutate (doc : YVal) (fields : List String) (cpus : Int) :
    (getSubfield doc fields true).2 = doc
      ∧ (getFieldAsString doc fields).2 = doc
      ∧ docAfterCompute doc cpus = doc := by
  refine ⟨getSubfield_get_tree fields doc, getFieldAsString_tree doc fields, ?_⟩
  unfold docAfterCompute computeReservedCPU
  by_cases hc : cpus ≤ 2
  · rw [if_pos hc]
    rcases hg : getReservedCPU doc with ⟨r, T⟩
    have hT : T = doc := by
      have h2 := getReservedCPU_tree doc
      rw [hg] at h2
      exact h2
    subst hT
    cases r with
    | error e => rfl
    | ok val =>
      by_cases hv : val = gkeCustomReservedCPU
      · simp [hv]
      · simp only [if_neg hv]
        unfold reservedFromFormula
        split_ifs
        · rfl
        · rfl
  · rw [if_neg hc]
    unfold reservedFromFormula
    split_ifs
    · rfl
    · rfl

/-- Closed form of one `totals` entry: inside `[0, cpus)` the four ranges
write 60, 10, 5 and 5/2 milli-units by index; outside nothing is
written. -/
theorem totalsFun_eq (cpus i : Int) :
    totalsFun cpus i = if 0 ≤ i ∧ i < cpus then reservedPerCoreQ i else 0 := by
  unfold totalsFun gkeRanges reservedPerCoreQ
  simp only [List.foldl_cons, List.foldl_nil]
  split_ifs <;> first | omega | norm_num

/-- The aggregation loop summed with the closed per-core form. -/
theorem milliCPUs_as_perCore (n : Nat) :
    milliCPUs (n : Int)
      = ((List.range n).map (fun i => reservedPerCoreQ ((i : Nat) : Int))).sum := by
  unfold milliCPUs
  rw [Int.toNat_ofNat]
  congr 1
  apply List.map_congr_left
  intro i hi
  rw [totalsFun_eq, if_pos]
  have hi2 := List.mem_range.mp hi
  omega

/-- One step of the claim formula: adding core `n` adds exactly its
per-core contribution. -/
theorem claimReservedQ_step (n : Nat) :
    claimReservedQ ((n : Int) + 1)
      = claimReservedQ (n : Int) + reservedPerCoreQ (n : Int) := by
  match n with
  | 0 => norm_num [claimReservedQ, reservedPerCoreQ, min_def, max_def]
  | 1 => norm_num [claimReservedQ, reservedPerCoreQ, min_def, max_def]
  | 2 => norm_num [claimReservedQ, reservedPerCoreQ, min_def, max_def]
  | 3 => norm_num [claimReservedQ, reservedPerCoreQ, min_def, max_def]
  | (m + 4) =>
    unfold claimReservedQ reservedPerCoreQ
    have e1 : max 0 (min 4 (((m + 4 : Nat) : Int) + 1) - 2) = 2 := by omega
    have e2 : max 0 (min 4 ((m + 4 : Nat) : Int) - 2) = 2 := by omega
    have e3 : max 0 (((m + 4 : Nat) : Int) + 1 - 4) = (m : Int) + 1 := by omega
    have e4 : max 0 (((m + 4 : Nat) : Int) - 4) = (m : Int) := by omega
    rw [e1, e2, e3, e4, if_pos (by omega), if_pos (by omega), if_pos (by omega),
      if_pos (by omega), if_neg (by omega), if_neg (by omega), if_neg (by omega)]
    push_cast
    ring

/-- The code's aggregate equals the claim formula, over the naturals. -/
theorem perCore_sum_eq_claim (n : Nat) :
    ((List.range n).map (fun i => reservedPerCoreQ ((i : Nat) : Int))).sum
      = claimReservedQ (n : Int) := by
  induction n with
  | zero => norm_num [claimReservedQ, min_def, max_def]
  | succ m ih =>
    rw [List.range_succ, List.map_append, List.sum_append, ih]
    simp only [List.map_cons, List.map_nil, List.sum_cons, List.sum_nil]
    rw [show ((m + 1 : Nat) : Int) = (m : Int) + 1 by omega, claimReservedQ_step]
    ring

/-- For a nonnegative cpu count the code's exact float sum equals the
claim formula. -/
theorem milliCPUs_eq_claimReservedQ (cpus : Int) (h : 0 ≤ cpus) :
    milliCPUs cpus = claimReservedQ cpus := by
  obtain ⟨n, rfl⟩ : ∃ n : Nat, cpus = (n : Int) :=
    ⟨cpus.toNat, by omega⟩
  rw [milliCPUs_as_perCore, perCore_sum_eq_claim]

/-- For every cpu count above two, `computeReservedCPU` skips the special
case and returns the claim formula string, leaving the document as is. -/
theorem computeReservedCPU_gt2 (doc : YVal) (cpus : Int) (h : 2 < cpus) :
    computeReservedCPU doc cpus = GoResult.ok (claimString cpus, doc) := by
  rw [computeReservedCPU, if_neg (by omega), reservedFromFormula, if_neg (by omega)]
  rw [claimString, milliCPUs_eq_claimReservedQ cpus (by omega)]

/-- Concrete value of the claim formula string at 16 cores. -/
theorem claimString_16 : claimString 16 = "110m" := by
  rw [claimString, show claimReservedQ 16 = (110 : ℚ) by
    norm_num [claimReservedQ, min_def, max_def]]
  rw [show int64trunc 110 = 110 by norm_num [int64trunc]]
  rfl

/-- Concrete value of the claim formula string at 8 cores. -/
theorem claimString_8 : claimString 8 = "90m" := by
  rw [claimString, show claimReservedQ 8 = (90 : ℚ) by
    norm_num [claimReservedQ, min_def, max_def]]
  rw [show int64trunc 90 = 90 by norm_num [int64trunc]]
  rfl

/-- Concrete value of the claim formula string at 32 cores. -/
theorem claimString_32 : claimString 32 = "150m" := by
  rw [claimString, show claimReservedQ 32 = (150 : ℚ) by
    norm_num [claimReservedQ, min_def, max_def]]
  rw [show int64trunc 150 = 150 by norm_num [int64trunc]]
  rfl

/-- Concrete value of the claim formula string at 64 cores. -/
theorem claimString_64 : claimString 64 = "230m" := by
  rw [claimString, show claimReservedQ 64 = (230 : ℚ) by
    norm_num [claimReservedQ, min_def, max_def]]
  rw [show int64trunc 230 = 230 by norm_num [int64trunc]]
  rfl

/-- Claim C1: whenever the small-shape special case does not return — for
every cpu count above two, and for cpu counts at most two whenever the
current `kubeReserved.cpu` reads back as a string different from the
override literal (the spec's contract restricts the operation to
nonnegative counts) — `computeReservedCPU` returns, without error, the
string `<n>m` where `n` is the one-shot truncation of the aggregate
60·[cpuCount ≥ 1] + 10·[cpuCount ≥ 2] + 5 per core index in
[2,4) ∩ [0,cpuCount) + 2.5 per core index in [4,cpuCount); concretely the
formula string is `110m` at 16, `90m` at 8, `150m` at 32 and `230m` at
64 cores. -/
theorem computeReservedCPU_formula :
    (∀ (doc : YVal) (cpus : Int),
        (2 < cpus
          ∨ (0 ≤ cpus ∧ ∃ val, (getReservedCPU doc).1 = Except.ok val
              ∧ val ≠ gkeCustomReservedCPU)) →
        computeReservedCPU doc cpus = GoResult.ok (claimString cpus, doc))
      ∧ claimString 16 = "110m" ∧ claimString 8 = "90m"
      ∧ claimString 32 = "150m" ∧ claimString 64 = "230m" := by
  refine ⟨?_, claimString_16, claimString_8, claimString_32, claimString_64⟩
  intro doc cpus h
  by_cases hc : cpus ≤ 2
  · rcases h with h2 | ⟨hnn, val, hval, hne⟩
    · omega
    · have hpair : getReservedCPU doc = (Except.ok val, doc) :=
        pairExt _ hval (getReservedCPU_tree doc)
      rw [computeReservedCPU, if_pos hc, hpair]
      simp only [if_neg hne]
      rw [reservedFromFormula, if_neg (by omega)]
      rw [claimString, milliCPUs_eq_claimReservedQ cpus hnn]
  · exact computeReservedCPU_gt2 doc cpus (by omega)

/-- Witness for C1 at 16 cores on the empty document. -/
theorem computeReservedCPU_formula_witness :
    computeReservedCPU (YVal.map []) 16 = GoResult.ok ("110m", YVal.map []) := by
  have h := computeReservedCPU_formula
  have h16 := h.1 (YVal.map []) 16 (Or.inl (by norm_num))
  rw [h.2.1] at h16
  exact h16

/-- Claim C2: for any cpu count at most two, when the document's
`kubeReserved.cpu` reads back as the override literal `1060m`,
`computeReservedCPU` returns it unchanged with no error; and when the
read fails, the error is propagated (with Go's zero string value). -/
theorem computeReservedCPU_override (doc : YVal) (cpus : Int) (h : cpus ≤ 2) :
    ((getReservedCPU doc).1 = Except.ok "1060m" →
      computeReservedCPU doc cpus = GoResult.ok ("1060m", doc))
      ∧ ∀ e, (getReservedCPU doc).1 = Except.error e →
        computeReservedCPU doc cpus = GoResult.err e ("", doc) := by
  constructor
  · intro hv
    have hpair : getReservedCPU doc = (Except.ok "1060m", doc) :=
      pairExt _ hv (getReservedCPU_tree doc)
    rw [computeReservedCPU, if_pos h, hpair]
    simp [gkeCustomReservedCPU]
  · intro e he
    have hpair : getReservedCPU doc = (Except.error e, doc) :=
      pairExt _ he (getReservedCPU_tree doc)
    rw [computeReservedCPU, if_pos h, hpair]

/-- Witness for C2: the override round at `cpuCount = 2`, and the error
propagation on the empty document at `cpuCount = 1`. -/
theorem computeReservedCPU_override_witness :
    computeReservedCPU
        (YVal.map [("kubeReserved", YVal.map [("cpu", YVal.str "1060m")])]) 2
      = GoResult.ok ("1060m",
          YVal.map [("kubeReserved", YVal.map [("cpu", YVal.str "1060m")])])
      ∧ computeReservedCPU (YVal.map []) 1
        = GoResult.err "field kubeReserved does not exist" ("", YVal.map []) :=
  ⟨(computeReservedCPU_override
      (YVal.map [("kubeReserved", YVal.map [("cpu", YVal.str "1060m")])]) 2
      (by norm_num)).1 rfl,
   (computeReservedCPU_override (YVal.map []) 1 (by norm_num)).2
      "field kubeReserved does not exist" rfl⟩

/-- Counterexample to claim C4 as stated: with `cpuCount = 0` the
special-case read runs first, so on the empty document
`computeReservedCPU` returns the read error, not `0m`. -/
theorem computeReservedCPU_zero_counterexample :
    computeReservedCPU (YVal.map []) 0
        = GoResult.err "field kubeReserved does not exist" ("", YVal.map [])
      ∧ computeReservedCPU (YVal.map []) 0
        ≠ GoResult.ok ("0m", YVal.map []) := by
  constructor
  · rfl
  · intro hc
    rw [show computeReservedCPU (YVal.map []) 0
        = GoResult.err "field kubeReserved does not exist" ("", YVal.map [])
      from rfl] at hc
    exact GoResult.noConfusion hc

/-- Claim C4 (amended): `cpuCount = 0` yields `0m` for every document
whose `kubeReserved.cpu` reads back as a string different from the
override literal, so that the special-case read returns nothing. -/
theorem computeReservedCPU_zero (doc : YVal) (val : String)
    (h1 : (getReservedCPU doc).1 = Except.ok val)
    (h2 : val ≠ gkeCustomReservedCPU) :
    computeReservedCPU doc 0 = GoResult.ok ("0m", doc) := by
  have hpair : getReservedCPU doc = (Except.ok val, doc) :=
    pairExt _ h1 (getReservedCPU_tree doc)
  rw [computeReservedCPU, if_pos (by norm_num), hpair]
  simp only [if_neg h2]
  rw [reservedFromFormula, if_neg (by norm_num)]
  rfl

/-- Witness for amended C4 on a document carrying a plain value. -/
theorem computeReservedCPU_zero_witness :
    computeReservedCPU
        (YVal.map [("kubeReserved", YVal.map [("cpu", YVal.str "50m")])]) 0
      = GoResult.ok ("0m",
          YVal.map [("kubeReserved", YVal.map [("cpu", YVal.str "50m")])]) :=
  computeReservedCPU_zero
    (YVal.map [("kubeReserved", YVal.map [("cpu", YVal.str "50m")])]) "50m"
    rfl (by decide)

/-- Claim C8: above two cores the result never is an error and does not
depend on the document: any two documents give the same string. -/
theorem computeReservedCPU_doc_independent (cpus : Int) (d1 d2 : YVal)
    (h : 2 < cpus) :
    ∃ s, computeReservedCPU d1 cpus = GoResult.ok (s, d1)
      ∧ computeReservedCPU d2 cpus = GoResult.ok (s, d2) :=
  ⟨claimString cpus, computeReservedCPU_gt2 d1 cpus h,
    computeReservedCPU_gt2 d2 cpus h⟩

/-- Witness for C8 at 5 cores on two different documents. -/
theorem computeReservedCPU_doc_independent_witness :
    ∃ s, computeReservedCPU (YVal.map []) 5 = GoResult.ok (s, YVal.map [])
      ∧ computeReservedCPU (YVal.map [("a", YVal.str "b")]) 5
        = GoResult.ok (s, YVal.map [("a", YVal.str "b")]) :=
  computeReservedCPU_doc_independent 5 (YVal.map [])
    (YVal.map [("a", YVal.str "b")]) (by norm_num)

/-- Claim C10: for every nonnegative cpu count the function is total — no
execution panics, in particular the slice allocation is well-formed. -/
theorem computeReservedCPU_no_crash (doc : YVal) (cpus : Int) (h : 0 ≤ cpus) :
    computeReservedCPU doc cpus ≠ GoResult.crash := by
  intro hc
  rw [computeReservedCPU] at hc
  by_cases h2 : cpus ≤ 2
  · rw [if_pos h2] at hc
    rcases hg : getReservedCPU doc with ⟨r, T⟩
    rw [hg] at hc
    cases r with
    | error e => exact GoResult.noConfusion hc
    | ok val =>
      by_cases hv : val = gkeCustomReservedCPU
      · simp [hv] at hc
      · simp only [if_neg hv, reservedFromFormula] at hc
        rw [if_neg (by omega)] at hc
        exact GoResult.noConfusion hc
  · rw [if_neg h2, reservedFromFormula, if_neg (by omega)] at hc
    exact GoResult.noConfusion hc

/-- Witness for C10 at 3 cores on the empty document. -/
theorem computeReservedCPU_no_crash_witness :
    (0 : Int) ≤ 3 ∧ computeReservedCPU (YVal.map []) 3 ≠ GoResult.crash :=
  ⟨by norm_num, computeReservedCPU_no_crash (YVal.map []) 3 (by norm_num)⟩

/-- Inversion of `trimSuffixCL`: when the suffix is present, reattaching
it reproduces the original bytes. -/
theorem trimSuffixCL_append (s suffix : List Char)
    (h : suffix.isSuffixOf s = true) :
    trimSuffixCL s suffix ++ suffix = s := by
  unfold trimSuffixCL
  rw [if_pos h]
  obtain ⟨t, rfl⟩ : ∃ t, s = t ++ suffix := by
    have h2 : suffix <:+ s := by simpa using h
    obtain ⟨t, ht⟩ := h2
    exact ⟨t, ht.symm⟩
  rw [List.length_append, Nat.add_sub_cancel]
  rw [List.take_left t suffix]

/-- Inversion of `splitLinesCL`: joining the lines it produces
reproduces the original bytes. -/
theorem splitLinesCL_join (s : List Char) :
    ∀ ls, splitLinesCL s = some ls → joinLinesCL ls = s := by
  induction s with
  | nil =>
    intro ls h
    rw [splitLinesCL] at h
    injection h with h1
    cases h1
    simp [joinLinesCL]
  | cons c cs ih =>
    intro ls h
    rw [splitLinesCL] at h
    by_cases hc : c = '\n'
    · rw [if_pos hc] at h
      rcases hs : splitLinesCL cs with _ | ls2
      · rw [hs] at h; exact absurd h (by simp)
      · rw [hs] at h
        injection h with h1
        cases h1
        rw [hc]
        simp [joinLinesCL] at ih ⊢
        exact ih ls2 hs
    · rw [if_neg hc] at h
      rcases hs : splitLinesCL cs with _ | ls2
      · rw [hs] at h; exact absurd h (by simp)
      · rw [hs] at h
        match ls2, hs, h with
        | [], hs, h => exact absurd h (by simp)
        | l :: ls3, hs, h =>
          injection h with h1
          cases h1
          have := ih (l :: ls3) hs
          simp [joinLinesCL] at this ⊢
          simp [this]

/-- Inversion of `splitColon`: the input is the key, the colon, and the
remainder. -/
theorem splitColon_eq (r : List Char) :
    ∀ k rest, splitColon r = some (k, rest) → r = k ++ ':' :: rest := by
  induction r with
  | nil => intro k rest h; rw [splitColon] at h; exact absurd h (by simp)
  | cons c cs ih =>
    intro k rest h
    rw [splitColon] at h
    by_cases hc : c = ':'
    · rw [if_pos hc] at h
      injection h with h1
      cases h1
      rw [hc]
      rfl
    · rw [if_neg hc] at h
      rcases hs : splitColon cs with _ | ⟨k2, r2⟩
      · rw [hs] at h; exact absurd h (by simp)
      · rw [hs] at h
        injection h with h1
        cases h1
        simp [ih k2 rest hs]

/-- Inversion of `lineIndentOK`: a line of depth `n` is its indentation
followed by its body. -/
theorem lineIndentOK_decomp (n : Nat) (line : List Char)
    (h : lineIndentOK n line = true) :
    line = List.replicate (2 * n) ' ' ++ line.drop (2 * n) := by
  unfold lineIndentOK at h
  rcases hd : line.drop (2 * n) with _ | ⟨c, cs⟩
  · rw [hd] at h; exact absurd h (by simp)
  · rw [hd] at h
    simp only [Bool.and_eq_true, decide_eq_true_eq] at h
    conv_lhs => rw [← List.take_append_drop (2 * n) line]
    rw [h.1, hd]

/-- Inversion of `seqItemBody`: an accepted line is the indentation, the
dash, the space and the item. -/
theorem seqItemBody_eq (n : Nat) (line item : List Char)
    (h : seqItemBody n line = some item) :
    line = List.replicate (2 * n) ' ' ++ '-' :: ' ' :: item := by
  unfold seqItemBody at h
  split_ifs at h with ht
  injection h with h1
  conv_lhs => rw [← List.take_append_drop (2 * n + 2) line]
  rw [ht, h1]
  simp

/-- Exactness of the sequence-item reader: the consumed items rendered as
`- item` lines reproduce the consumed input in front of the rest. -/
theorem parseSeqItems_render (n : Nat) :
    ∀ (lines : List (List Char)) (items : List String)
      (rem : List (List Char)),
      parseSeqItems n lines = (items, rem) →
      items.map (fun s => List.replicate (2 * n) ' ' ++ '-' :: ' ' :: s.data)
        ++ rem = lines := by
  intro lines
  induction lines with
  | nil =>
    intro items rem h
    rw [parseSeqItems] at h
    injection h with h1 h2
    cases h1
    cases h2
    rfl
  | cons line rest ih =>
    intro items rem h
    rw [parseSeqItems] at h
    rcases hb : seqItemBody n line with _ | item
    · rw [hb] at h
      injection h with h1 h2
      cases h1
      cases h2
      rfl
    · rw [hb] at h
      injection h with h1 h2
      cases h1
      cases h2
      have ihh := ih (parseSeqItems n rest).1 (parseSeqItems n rest).2
        (pairExt _ rfl rfl)
      simp only [List.map_cons, List.cons_append]
      rw [ihh, ← seqItemBody_eq n line item hb]

/-- Exactness of the reader: whatever `parseBlock` accepts, the renderer
reproduces, byte for byte, in front of the unconsumed lines. -/
theorem parseBlock_render (fuel : Nat) :
    ∀ (n : Nat) (lines : List (List Char)) (entries : List (String × YVal))
      (rem : List (List Char)),
      parseBlock fuel n lines = some (entries, rem) →
      renderEntries n entries ++ rem = lines := by
  induction fuel with
  | zero =>
    intro n lines entries rem h
    rw [parseBlock] at h
    exact absurd h (by simp)
  | succ fuel ih =>
    intro n lines entries rem h
    match lines with
    | [] =>
      rw [parseBlock] at h
      injection h with h1
      cases h1
      simp [renderEntries]
    | line :: rest =>
      rw [parseBlock] at h
      by_cases hind : lineIndentOK n line
      · rw [if_pos hind] at h
        split at h
        · exact absurd h (by simp)
        · rename_i k r hsc
          split at h
          · exact absurd h (by simp)
          · rename_i hk
            have hline : line = List.replicate (2 * n) ' ' ++ (k ++ ':' :: r) := by
              rw [lineIndentOK_decomp n line hind, splitColon_eq _ k r hsc]
            split at h
            · -- header entry: sequence items or nested sub-mapping
              split at h
              · -- sequence entry
                rename_i i0 items rem1 hsq
                split at h
                · exact absurd h (by simp)
                · rename_i entries2 rem2 hp2
                  injection h with h1
                  injection h1 with h1a h1b
                  cases h1a
                  cases h1b
                  have hseq := parseSeqItems_render n rest (i0 :: items) rem1 hsq
                  have ih2 := ih n rem1 _ _ hp2
                  simp only [renderEntries, List.cons_append, List.append_assoc]
                  rw [ih2, hseq, hline]
              · -- nested sub-mapping entry
                split at h
                · exact absurd h (by simp)
                · exact absurd h (by simp)
                · rename_i s0 subRest rem1 hp1
                  split at h
                  · exact absurd h (by simp)
                  · rename_i entries2 rem2 hp2
                    injection h with h1
                    injection h1 with h1a h1b
                    cases h1a
                    cases h1b
                    have ih1 := ih (n + 1) rest (s0 :: subRest) rem1 hp1
                    have ih2 := ih n rem1 _ _ hp2
                    simp only [renderEntries, List.cons_append, List.append_assoc]
                    rw [ih2, ih1, hline]
            · -- scalar entry
              rename_i c v
              split at h
              · rename_i hc
                split at h
                · exact absurd h (by simp)
                · rename_i entries2 rem2 hp1
                  injection h with h1
                  injection h1 with h1a h1b
                  cases h1a
                  cases h1b
                  have ih1 := ih n rest _ _ hp1
                  simp only [renderEntries, List.cons_append]
                  rw [ih1, hline, hc]
                  simp
              · exact absurd h (by simp)
      · rw [if_neg hind] at h
        injection h with h1
        injection h1 with h1a h1b
        cases h1a
        cases h1b
        simp [renderEntries]

/-- Claim C3: for every byte string that deserializes as a valid document
and carries the mandatory trailing marker, serializing the parsed
document reproduces the input byte for byte — entry order and marker
included. -/
theorem serialize_deserialize_roundtrip (D : List Char)
    (cfg : List (String × YVal))
    (hsuf : kubeconfigSuffix.data.isSuffixOf D = true)
    (hparse : getKubeconfig D = some cfg) :
    unpack cfg = D := by
  rw [getKubeconfig] at hparse
  split at hparse
  · exact absurd hparse (by simp)
  · rename_i lines hsplit
    split at hparse
    · rename_i entries hpb
      injection hparse with h1
      cases h1
      rw [unpack]
      have hr := parseBlock_render (lines.length + 1) 0 lines cfg [] hpb
      rw [List.append_nil] at hr
      rw [hr, splitLinesCL_join _ lines hsplit]
      exact trimSuffixCL_append D kubeconfigSuffix.data hsuf
    · exact absurd hparse (by simp)

/-- Witness for C3 on a concrete document with a sequence of scalars
(the sample file's `clusterDNS` entry) and a nested mapping. -/
theorem serialize_deserialize_roundtrip_witness :
    unpack [("clusterDNS", YVal.seq ["10.3.240.10"]),
        ("kubeReserved", YVal.map [("cpu", YVal.str "1060m")])]
      = ("clusterDNS:\n- 10.3.240.10\nkubeReserved:\n  cpu: 1060m\n"
          ++ kubeconfigSuffix).data :=
  serialize_deserialize_roundtrip
    ("clusterDNS:\n- 10.3.240.10\nkubeReserved:\n  cpu: 1060m\n"
        ++ kubeconfigSuffix).data
    [("clusterDNS", YVal.seq ["10.3.240.10"]),
      ("kubeReserved", YVal.map [("cpu", YVal.str "1060m")])]
    (by decide) rfl
